import Mathlib

/-!
Verification of the BilibiliRelationMap acquisition-and-construction pipeline.

This file gives a shallow embedding, in Lean 4, of the pipeline's core
functions — retry classification and exponential backoff
(`src/services/biliApi`), the TTL cache (`src/utils/cacheManager`),
in-flight request deduplication (`getCommonFollowings`), paginated
fetching and batched common-followings aggregation (`useGraphData` /
`FollowingsGraph`), and the pure graph transformation
(`useGraphTransform`) — and proves the specification's claims about them.

Numeric conventions: JavaScript numbers are modelled as `Nat`/`Int` where
the code only ever handles integers (status codes, mids, millisecond
timestamps) and as `ℚ` for the backoff-delay computation, whose claim is
an interval statement over real-valued arithmetic.  String ids
(`mid.toString()`, edge keys `"source-target"`) are modelled by the
underlying numeric ids / ordered pairs, which the string encodings are in
bijection with (numeric strings contain no dash, so the edge key is
injective on pairs).
-/

/-! ## Retry configuration and exponential backoff (part_007 lines 7-39) -/

structure RetryConfig where
  maxRetries : Nat
  baseDelayMs : ℚ
  maxDelayMs : ℚ

def DEFAULT_RETRY_CONFIG : RetryConfig :=
  { maxRetries := 3, baseDelayMs := 1000, maxDelayMs := 10000 }

/-- `calculateBackoffDelay` from part_007:
`exponentialDelay = baseDelayMs * 2^attempt`,
`jitter = Math.random() * 0.3 * exponentialDelay`,
result `= Math.min(exponentialDelay + jitter, maxDelayMs)`.
`rand` stands for the value drawn by `Math.random()` (in `[0,1)`). -/
def calculateBackoffDelay (attempt : Nat) (config : RetryConfig) (rand : ℚ) : ℚ :=
  let exponentialDelay := config.baseDelayMs * 2 ^ attempt
  let jitter := rand * (3 / 10) * exponentialDelay
  min (exponentialDelay + jitter) config.maxDelayMs

/-! ## Retry classification (part_007 lines 57-127) -/

/-- `String.prototype.includes`: character-level substring test. -/
def charsStartWith : List Char → List Char → Bool
  | [], _ => true
  | _ :: _, [] => false
  | c :: cs, d :: ds => c = d && charsStartWith cs ds

def charsContain (sub : List Char) : List Char → Bool
  | [] => sub.isEmpty
  | c :: cs => charsStartWith sub (c :: cs) || charsContain sub cs

def strIncludes (s sub : String) : Bool :=
  charsContain sub.data s.data

/-- The `Error` value built by `executeRequest`: a message plus the
optional `statusCode` property attached to it. -/
structure ReqError where
  message : String
  statusCode : Option Nat
deriving DecidableEq, Repr

/-- `isRetryableError` from part_007 lines 67-80.  The guard
`statusCode && (...)` is truthy only for a present, non-zero code. -/
def isRetryableError (e : ReqError) : Bool :=
  (match e.statusCode with
   | some s => !(s == 0) && (s == 429 || decide (500 ≤ s))
   | none => false)
  || strIncludes e.message "网络请求失败"
  || strIncludes e.message "请求超时"

/-- The parse of `response.responseText`: either valid JSON carrying the
application `code` and `message` fields, or text `JSON.parse` rejects. -/
inductive BodyText where
  | parsed (code : Int) (message : String)
  | invalid
deriving DecidableEq, Repr

/-- The outcome of one `GM_xmlhttpRequest`: the `onload` handler fires
with an HTTP status, status text and response body; or `onerror` /
`ontimeout` fires. -/
inductive RequestOutcome where
  | onload (status : Nat) (statusText : String) (body : BodyText)
  | onerror
  | ontimeout
deriving DecidableEq, Repr

/-- `executeRequest` from part_007 lines 85-127, as the function from the
transport outcome to the settled promise: non-2xx statuses reject with the
status attached; in the 2xx range the body is parsed, application code 0
resolves, code -412 rejects with `statusCode = 429`, any other code
rejects with the server message (defaulted when empty), and a parse
failure rejects with a fixed message; `onerror` / `ontimeout` reject with
their fixed messages. -/
def executeRequest (o : RequestOutcome) : Except ReqError Unit :=
  match o with
  | .onload status statusText body =>
      if status < 200 ∨ 300 ≤ status then
        .error ⟨"HTTP 错误: " ++ toString status ++ " " ++ statusText, some status⟩
      else
        match body with
        | .parsed code msg =>
            if code = 0 then .ok ()
            else if code = -412 then
              .error ⟨"请求被风控限制，请稍后重试", some 429⟩
            else
              .error ⟨if msg = "" then "请求失败" else msg, none⟩
        | .invalid => .error ⟨"响应解析失败", none⟩
  | .onerror => .error ⟨"网络请求失败", none⟩
  | .ontimeout => .error ⟨"请求超时", none⟩

/-- A string is clean when it does not accidentally contain either of the
two transport-failure marker substrings that `isRetryableError` matches
on.  Server-controlled text (the HTTP status text, the application error
message) is assumed clean. -/
def cleanOf (s : String) : Prop :=
  strIncludes s "网络请求失败" = false ∧ strIncludes s "请求超时" = false

/-- Cleanliness of the server-controlled parts of an outcome: the
composed HTTP-error message and the application error message. -/
def outcomeClean : RequestOutcome → Prop
  | .onload status statusText body =>
      cleanOf ("HTTP 错误: " ++ toString status ++ " " ++ statusText) ∧
      (∀ code msg, body = .parsed code msg →
        cleanOf (if msg = "" then "请求失败" else msg))
  | .onerror => True
  | .ontimeout => True

/-- C1: for every failed call, the classification is retryable exactly
when the HTTP status is 429 or at least 500, or the transport failed or
timed out, or (on a 2xx transport response) the parsed application code
is -412, which is mapped to an HTTP-429-equivalent error; every other
failure (other 4xx/3xx statuses, JSON parse failure, other non-zero
application codes) is not retryable. -/
theorem C1_retry_classification (o : RequestOutcome) (e : ReqError)
    (hfail : executeRequest o = .error e) (hclean : outcomeClean o) :
    isRetryableError e = true ↔
      (o = .onerror ∨ o = .ontimeout ∨
       (∃ st txt b, o = .onload st txt b ∧ (st = 429 ∨ 500 ≤ st)) ∨
       (∃ st txt m, o = .onload st txt (.parsed (-412) m) ∧ 200 ≤ st ∧ st < 300)) := by
  cases o with
  | onerror =>
      simp only [executeRequest, Except.error.injEq] at hfail
      subst hfail
      constructor
      · intro _
        exact Or.inl rfl
      · intro _
        decide
  | ontimeout =>
      simp only [executeRequest, Except.error.injEq] at hfail
      subst hfail
      constructor
      · intro _
        exact Or.inr (Or.inl rfl)
      · intro _
        decide
  | onload status txt body =>
      obtain ⟨hhttp, happ⟩ := hclean
      simp only [executeRequest] at hfail
      by_cases hrange : status < 200 ∨ 300 ≤ status
      · rw [if_pos hrange] at hfail
        rw [Except.error.injEq] at hfail
        subst hfail
        obtain ⟨hm1, hm2⟩ := hhttp
        simp only [isRetryableError, hm1, hm2, Bool.or_false, Bool.and_eq_true,
          Bool.or_eq_true, beq_iff_eq, Bool.not_eq_true', beq_eq_false_iff_ne,
          decide_eq_true_eq]
        constructor
        · rintro ⟨-, hst⟩
          exact Or.inr (Or.inr (Or.inl ⟨status, txt, body, rfl, hst⟩))
        · rintro (h | h | ⟨st, txt', b', heq, hst⟩ | ⟨st, txt', m, heq, hge, hlt⟩)
          · simp at h
          · simp at h
          · cases heq
            exact ⟨by omega, hst⟩
          · cases heq
            omega
      · rw [if_neg hrange] at hfail
        cases body with
        | invalid =>
            rw [Except.error.injEq] at hfail
            subst hfail
            have hfalse : isRetryableError ⟨"响应解析失败", none⟩ = false := by decide
            rw [hfalse]
            simp only [Bool.false_eq_true, false_iff]
            rintro (h | h | ⟨st, txt', b', heq, hst⟩ | ⟨st, txt', m, heq, hge, hlt⟩)
            · simp at h
            · simp at h
            · cases heq
              omega
            · simp at heq
        | parsed code msg =>
            replace hfail :
                (if code = 0 then (Except.ok () : Except ReqError Unit)
                 else if code = -412 then
                   Except.error ⟨"请求被风控限制，请稍后重试", some 429⟩
                 else
                   Except.error ⟨if msg = "" then "请求失败" else msg, none⟩)
                  = Except.error e := hfail
            by_cases h0 : code = 0
            · rw [if_pos h0] at hfail
              cases hfail
            · rw [if_neg h0] at hfail
              by_cases h412 : code = -412
              · rw [if_pos h412] at hfail
                rw [Except.error.injEq] at hfail
                subst hfail
                subst h412
                constructor
                · intro _
                  exact Or.inr (Or.inr (Or.inr ⟨status, txt, msg, rfl, by omega, by omega⟩))
                · intro _
                  decide
              · rw [if_neg h412] at hfail
                rw [Except.error.injEq] at hfail
                subst hfail
                obtain ⟨hm1, hm2⟩ := happ code msg rfl
                simp only [isRetryableError, hm1, hm2, Bool.or_false,
                  Bool.false_eq_true, false_iff]
                rintro (h | h | ⟨st, txt', b', heq, hst⟩ | ⟨st, txt', m, heq, hge, hlt⟩)
                · simp at h
                · simp at h
                · cases heq
                  omega
                · rw [RequestOutcome.onload.injEq] at heq
                  obtain ⟨-, -, hb⟩ := heq
                  rw [BodyText.parsed.injEq] at hb
                  exact h412 hb.1

/-- Witness for C1 at the concrete outcome `ontimeout`. -/
theorem C1_retry_classification_witness :
    executeRequest .ontimeout = .error ⟨"请求超时", none⟩ ∧
    (isRetryableError ⟨"请求超时", none⟩ = true ↔
      ((RequestOutcome.ontimeout = .onerror ∨ RequestOutcome.ontimeout = .ontimeout ∨
       (∃ st txt b, RequestOutcome.ontimeout = .onload st txt b ∧ (st = 429 ∨ 500 ≤ st)) ∨
       (∃ st txt m, RequestOutcome.ontimeout = .onload st txt (.parsed (-412) m) ∧
          200 ≤ st ∧ st < 300)))) :=
  ⟨rfl, C1_retry_classification .ontimeout ⟨"请求超时", none⟩ rfl trivial⟩

/-- C2 counterexample: at attempt 4 under the default configuration
(baseDelay 1000, maxDelay 10000) with zero jitter, the computed delay is
10000, which is strictly below the claimed lower endpoint
`baseDelay * 2^4 = 16000`, so the claimed containment fails. -/
theorem C2_backoff_counterexample :
    calculateBackoffDelay 4 DEFAULT_RETRY_CONFIG 0 = 10000 ∧
    ¬ (DEFAULT_RETRY_CONFIG.baseDelayMs * 2 ^ 4
        ≤ calculateBackoffDelay 4 DEFAULT_RETRY_CONFIG 0) := by
  constructor
  · norm_num [calculateBackoffDelay, DEFAULT_RETRY_CONFIG, min_def]
  · norm_num [calculateBackoffDelay, DEFAULT_RETRY_CONFIG, min_def]

/-- C2 (amended): for every attempt `n`, nonnegative `baseDelay` and
jitter draw `rand ∈ [0,1)`, the computed delay lies in
`[min(maxDelay, baseDelay*2^n), min(maxDelay, baseDelay*2^n*1.3)]` and
equals `min(maxDelay, baseDelay*2^n*(1+j))` for `j = 0.3*rand ∈ [0,0.3)`. -/
theorem C2_backoff_bound (attempt : Nat) (config : RetryConfig) (rand : ℚ)
    (hrand0 : 0 ≤ rand) (hrand1 : rand < 1) (hbase : 0 ≤ config.baseDelayMs) :
    min config.maxDelayMs (config.baseDelayMs * 2 ^ attempt)
        ≤ calculateBackoffDelay attempt config rand ∧
    calculateBackoffDelay attempt config rand
        ≤ min config.maxDelayMs (config.baseDelayMs * 2 ^ attempt * (13 / 10)) ∧
    ∃ j : ℚ, 0 ≤ j ∧ j < 3 / 10 ∧
      calculateBackoffDelay attempt config rand
        = min config.maxDelayMs (config.baseDelayMs * 2 ^ attempt * (1 + j)) := by
  have h2 : (0 : ℚ) ≤ 2 ^ attempt := pow_nonneg (by norm_num) attempt
  have hE : 0 ≤ config.baseDelayMs * 2 ^ attempt := mul_nonneg hbase h2
  have hdelay : calculateBackoffDelay attempt config rand
      = min config.maxDelayMs
          (config.baseDelayMs * 2 ^ attempt * (1 + 3 / 10 * rand)) := by
    simp only [calculateBackoffDelay]
    rw [min_comm]
    congr 1
    ring
  have hj0 : 0 ≤ 3 / 10 * rand := by positivity
  have hj1 : 3 / 10 * rand < 3 / 10 := by nlinarith
  have h1le : (1 : ℚ) ≤ 1 + 3 / 10 * rand := by linarith
  have hlow : config.baseDelayMs * 2 ^ attempt
      ≤ config.baseDelayMs * 2 ^ attempt * (1 + 3 / 10 * rand) :=
    le_mul_of_one_le_right hE h1le
  have hupp : config.baseDelayMs * 2 ^ attempt * (1 + 3 / 10 * rand)
      ≤ config.baseDelayMs * 2 ^ attempt * (13 / 10) := by nlinarith
  refine ⟨?_, ?_, 3 / 10 * rand, hj0, hj1, hdelay⟩
  · rw [hdelay]
    exact min_le_min le_rfl hlow
  · rw [hdelay]
    exact min_le_min le_rfl hupp

/-- Witness for the amended C2 at attempt 1, default configuration,
`rand = 1/2`. -/
theorem C2_backoff_bound_witness :
    (0 : ℚ) ≤ 1 / 2 ∧ (1 / 2 : ℚ) < 1 ∧ (0 : ℚ) ≤ DEFAULT_RETRY_CONFIG.baseDelayMs ∧
    (min DEFAULT_RETRY_CONFIG.maxDelayMs (DEFAULT_RETRY_CONFIG.baseDelayMs * 2 ^ 1)
        ≤ calculateBackoffDelay 1 DEFAULT_RETRY_CONFIG (1 / 2) ∧
     calculateBackoffDelay 1 DEFAULT_RETRY_CONFIG (1 / 2)
        ≤ min DEFAULT_RETRY_CONFIG.maxDelayMs
            (DEFAULT_RETRY_CONFIG.baseDelayMs * 2 ^ 1 * (13 / 10)) ∧
     ∃ j : ℚ, 0 ≤ j ∧ j < 3 / 10 ∧
       calculateBackoffDelay 1 DEFAULT_RETRY_CONFIG (1 / 2)
        = min DEFAULT_RETRY_CONFIG.maxDelayMs
            (DEFAULT_RETRY_CONFIG.baseDelayMs * 2 ^ 1 * (1 + j))) :=
  ⟨by norm_num, by norm_num, by norm_num [DEFAULT_RETRY_CONFIG],
    C2_backoff_bound 1 DEFAULT_RETRY_CONFIG (1 / 2) (by norm_num) (by norm_num)
      (by norm_num [DEFAULT_RETRY_CONFIG])⟩

/-! ## CacheManager (part_000) -/

/-- What localStorage holds under one key: text that parses as a
`CacheItem { data, expiry }`, or text `JSON.parse` rejects. -/
inductive StoredText (V : Type) where
  | valid (data : V) (expiry : Nat)
  | malformed
deriving DecidableEq, Repr

/-- `localStorage.setItem`: replaces any previous value under the key. -/
def storeSetItem {V : Type} (store : List (String × StoredText V)) (k : String)
    (v : StoredText V) : List (String × StoredText V) :=
  (k, v) :: store.filter (fun p => p.1 != k)

/-- `localStorage.removeItem`. -/
def storeRemoveItem {V : Type} (store : List (String × StoredText V)) (k : String) :
    List (String × StoredText V) :=
  store.filter (fun p => p.1 != k)

structure CacheConfig where
  expiryDays : Nat

def DEFAULT_CACHE_CONFIG : CacheConfig := { expiryDays := 1 }

/-- The fixed key namespace prefix of `CacheManager`. -/
def cachePrefix : String := "bilibili_helper_"

/-- `CacheManager.set`: stores `{data, expiry := now + expiryDays·24h}`
under the namespaced key. -/
def CacheManager.set {V : Type} (cfg : CacheConfig)
    (store : List (String × StoredText V)) (now : Nat) (key : String) (v : V) :
    List (String × StoredText V) :=
  storeSetItem store (cachePrefix ++ key)
    (.valid v (now + cfg.expiryDays * 24 * 60 * 60 * 1000))

/-- `CacheManager.get` from part_000 lines 48-66: absent key returns
null; a stored value that fails to parse raises inside the `try` and the
`catch` returns null with the store untouched; a parsed entry with
`now > expiry` is removed and null is returned; otherwise the data is
returned.  The returned pair is (result, store after the call). -/
def CacheManager.get {V : Type} (store : List (String × StoredText V))
    (now : Nat) (key : String) : Option V × List (String × StoredText V) :=
  match store.lookup (cachePrefix ++ key) with
  | none => (none, store)
  | some .malformed => (none, store)
  | some (.valid v expiry) =>
      if expiry < now then (none, storeRemoveItem store (cachePrefix ++ key))
      else (some v, store)

theorem lookup_storeRemoveItem {V : Type} (store : List (String × StoredText V))
    (k : String) : (storeRemoveItem store k).lookup k = none := by
  induction store with
  | nil => rfl
  | cons p rest ih =>
      simp only [storeRemoveItem, List.filter_cons]
      by_cases h : p.1 = k
      · simp only [h, bne_self_eq_false]
        exact ih
      · have hb : (p.1 != k) = true := bne_iff_ne.mpr h
        simp only [hb, if_true]
        rw [List.lookup_cons]
        have : (k == p.1) = false := beq_eq_false_iff_ne.mpr (fun hk => h hk.symm)
        rw [this]
        exact ih

/-- C4: once the current time is strictly past a stored entry's expiry,
`get` returns null, evicts the entry (a later lookup of the namespaced
key finds nothing), and any subsequent `get` — at any time — also
returns null: the expired value is never resurrected. -/
theorem C4_cache_expiry {V : Type} (store : List (String × StoredText V))
    (now now2 : Nat) (key : String) (v : V) (expiry : Nat)
    (hstored : store.lookup (cachePrefix ++ key) = some (.valid v expiry))
    (hexp : expiry < now) :
    (CacheManager.get store now key).1 = none ∧
    ((CacheManager.get store now key).2).lookup (cachePrefix ++ key) = none ∧
    (CacheManager.get (CacheManager.get store now key).2 now2 key).1 = none := by
  have hget : CacheManager.get store now key
      = (none, storeRemoveItem store (cachePrefix ++ key)) := by
    simp only [CacheManager.get, hstored]
    rw [if_pos hexp]
  refine ⟨by rw [hget], ?_, ?_⟩
  · rw [hget]
    exact lookup_storeRemoveItem store (cachePrefix ++ key)
  · rw [hget]
    simp only [CacheManager.get, lookup_storeRemoveItem]

/-- Witness for C4: store the value 42 at time 0 under key "k" with the
default 1-day TTL, then read it back at one millisecond past expiry. -/
theorem C4_cache_expiry_witness :
    (CacheManager.set DEFAULT_CACHE_CONFIG ([] : List (String × StoredText Nat))
        0 "k" 42).lookup (cachePrefix ++ "k") = some (.valid 42 86400000) ∧
    86400000 < 86400001 ∧
    ((CacheManager.get (CacheManager.set DEFAULT_CACHE_CONFIG
        ([] : List (String × StoredText Nat)) 0 "k" 42) 86400001 "k").1 = none ∧
     ((CacheManager.get (CacheManager.set DEFAULT_CACHE_CONFIG
        ([] : List (String × StoredText Nat)) 0 "k" 42) 86400001 "k").2).lookup
          (cachePrefix ++ "k") = none ∧
     (CacheManager.get (CacheManager.get (CacheManager.set DEFAULT_CACHE_CONFIG
        ([] : List (String × StoredText Nat)) 0 "k" 42) 86400001 "k").2
          99999999 "k").1 = none) :=
  ⟨rfl, by norm_num,
    C4_cache_expiry _ 86400001 99999999 "k" 42 86400000 rfl (by norm_num)⟩

/-- C10: `CacheManager.get` is total; an absent entry or one whose text
fails to parse yields null (a cache miss), with the store untouched. -/
theorem C10_cache_get_total {V : Type} (store : List (String × StoredText V))
    (now : Nat) (key : String)
    (h : store.lookup (cachePrefix ++ key) = none ∨
         store.lookup (cachePrefix ++ key) = some .malformed) :
    (CacheManager.get store now key).1 = none ∧
    (CacheManager.get store now key).2 = store := by
  rcases h with h | h <;> simp [CacheManager.get, h]

/-- Witness for C10 at a store holding unparsable text under the key. -/
theorem C10_cache_get_total_witness :
    ([(cachePrefix ++ "x", StoredText.malformed)] :
        List (String × StoredText Nat)).lookup (cachePrefix ++ "x")
      = some .malformed ∧
    ((CacheManager.get ([(cachePrefix ++ "x", StoredText.malformed)] :
        List (String × StoredText Nat)) 7 "x").1 = none ∧
     (CacheManager.get ([(cachePrefix ++ "x", StoredText.malformed)] :
        List (String × StoredText Nat)) 7 "x").2
        = [(cachePrefix ++ "x", StoredText.malformed)]) :=
  ⟨rfl, C10_cache_get_total _ 7 "x" (Or.inr rfl)⟩

/-! ## Paginated followings fetch (part_003 `loadAllData` lines 72-106,
FollowingsGraph.tsx lines 185-213) -/

/-- A followings-list page response: the `data.list` payload (absent or
non-array modelled as `none`, which a later page skips with a warning and
the first page turns into a thrown error) and the reported `data.total`. -/
structure FansData where
  list : Option (List Nat)
  total : Nat

/-- `pageSize` in `loadAllData`. -/
def fansPageSize : Nat := 50

/-- `loadAllData`'s pagination: fetch page 1, learn `total`, compute
`totalPages = ceil(total / pageSize)`, fetch pages `2..totalPages`
sequentially, concatenating valid page lists in page order and skipping
malformed ones.  Returns the merged items and the ordered list of pages
requested; `none` models the throw when page 1 itself is malformed. -/
def loadFollowings (fetchPage : Nat → FansData) : Option (List Nat × List Nat) :=
  match (fetchPage 1).list with
  | none => none
  | some firstList =>
      let totalPages := ((fetchPage 1).total + fansPageSize - 1) / fansPageSize
      let restPages := List.range' 2 (totalPages - 1)
      let items := restPages.foldl
        (fun acc p =>
          match (fetchPage p).list with
          | some l => acc ++ l
          | none => acc) firstList
      some (items, 1 :: restPages)

/-- C5: when page 1 reports `total = 125` at page size 50 and the three
pages carry 50, 50 and 25 items, the fetch requests exactly pages
`[1, 2, 3]` in order and returns the 125 items concatenated in page
order. -/
theorem C5_pagination (fetchPage : Nat → FansData) (l1 l2 l3 : List Nat)
    (htotal : (fetchPage 1).total = 125)
    (h1 : (fetchPage 1).list = some l1) (hl1 : l1.length = 50)
    (h2 : (fetchPage 2).list = some l2) (hl2 : l2.length = 50)
    (h3 : (fetchPage 3).list = some l3) (hl3 : l3.length = 25) :
    loadFollowings fetchPage = some (l1 ++ l2 ++ l3, [1, 2, 3]) ∧
    (l1 ++ l2 ++ l3).length = 125 := by
  constructor
  · rw [loadFollowings]
    rw [h1]
    simp only [htotal, fansPageSize]
    norm_num
    rw [show List.range' 2 2 = [2, 3] from rfl]
    simp only [List.foldl_cons, List.foldl_nil, h2, h3]
    exact ⟨List.append_assoc l1 l2 l3, trivial⟩
  · simp [hl1, hl2, hl3]

/-- The concrete three-page fetch used as the C5 witness. -/
def c5Pages : Nat → FansData := fun p =>
  if p = 1 then ⟨some (List.range 50), 125⟩
  else if p = 2 then ⟨some ((List.range 50).map (· + 50)), 125⟩
  else if p = 3 then ⟨some ((List.range 25).map (· + 100)), 125⟩
  else ⟨none, 125⟩

/-- Witness for C5 at a concrete three-page dataset. -/
theorem C5_pagination_witness :
    (c5Pages 1).total = 125 ∧
    (c5Pages 1).list = some (List.range 50) ∧ (List.range 50).length = 50 ∧
    (c5Pages 2).list = some ((List.range 50).map (· + 50)) ∧
      ((List.range 50).map (· + 50)).length = 50 ∧
    (c5Pages 3).list = some ((List.range 25).map (· + 100)) ∧
      ((List.range 25).map (· + 100)).length = 25 ∧
    (loadFollowings c5Pages
        = some (List.range 50 ++ (List.range 50).map (· + 50)
            ++ (List.range 25).map (· + 100), [1, 2, 3]) ∧
     (List.range 50 ++ (List.range 50).map (· + 50)
        ++ (List.range 25).map (· + 100)).length = 125) :=
  ⟨rfl, rfl, by simp, rfl, by simp, rfl, by simp,
    C5_pagination c5Pages _ _ _ rfl rfl (by simp) rfl (by simp) rfl (by simp)⟩

/-! ## Batched common-followings aggregation (part_003
`loadCommonFollowingsBatch` lines 23-56, FollowingsGraph.tsx lines
232-265; pacing also part_001 lines 455-460) -/

/-- What one `getCommonFollowings(mid)` settles with: the resolved list
of common mids plus whether it was served from cache (part_007's
`CommonFollowingsResult`), or a rejection. -/
structure CFResult where
  fromCache : Bool
  list : List Nat
deriving DecidableEq, Repr

/-- The `try`/`catch` around one member fetch: a resolved call
contributes its list, a rejected call contributes the empty list. -/
def cfValue (r : Except Unit CFResult) : List Nat :=
  match r with
  | .ok res => res.list
  | .error _ => []

/-- The `for (let i = 0; i < mids.length; i += batchSize)` loop of
`loadCommonFollowingsBatch` with `batchSize = 10`, `delay = 300`: each
iteration takes the batch `mids.slice(i, i + 10)`, records each member's
entry (empty on rejection), and — when `i + batchSize < mids.length` —
sleeps the fixed 300 ms pacing delay before the next batch.  Returns the
accumulated entries (in batch order) and the list of sleeps performed. -/
def loadCommonLoop (fetch : Nat → Except Unit CFResult) (mids : List Nat)
    (i : Nat) : List (Nat × List Nat) × List Nat :=
  if _h : i < mids.length then
    let batch := (mids.drop i).take 10
    let entries := batch.map (fun mid => (mid, cfValue (fetch mid)))
    let rest := loadCommonLoop fetch mids (i + 10)
    if i + 10 < mids.length then (entries ++ rest.1, 300 :: rest.2)
    else (entries ++ rest.1, rest.2)
  else ([], [])
termination_by mids.length - i
decreasing_by omega

def loadCommonFollowingsBatch (fetch : Nat → Except Unit CFResult)
    (mids : List Nat) : List (Nat × List Nat) × List Nat :=
  loadCommonLoop fetch mids 0

/-- Closed form of the batch loop: the entries are exactly one entry per
identifier in input order, and the sleeps are a fixed 300 per inter-batch
gap, independent of the fetch outcomes. -/
theorem loadCommonLoop_spec (fetch : Nat → Except Unit CFResult)
    (mids : List Nat) :
    ∀ i, loadCommonLoop fetch mids i
      = ((mids.drop i).map (fun mid => (mid, cfValue (fetch mid))),
         List.replicate ((mids.length - i - 1) / 10) 300) := by
  suffices H : ∀ k i, mids.length - i = k →
      loadCommonLoop fetch mids i
        = ((mids.drop i).map (fun mid => (mid, cfValue (fetch mid))),
           List.replicate ((mids.length - i - 1) / 10) 300) by
    intro i
    exact H (mids.length - i) i rfl
  intro k
  induction k using Nat.strong_induction_on with
  | _ k ih =>
      intro i hk
      by_cases h : i < mids.length
      · rw [loadCommonLoop, dif_pos h]
        have hrec := ih (mids.length - (i + 10)) (by omega) (i + 10) rfl
        simp only [hrec]
        have hdrop : ((mids.drop i).take 10).map
              (fun mid => (mid, cfValue (fetch mid)))
            ++ (mids.drop (i + 10)).map (fun mid => (mid, cfValue (fetch mid)))
            = (mids.drop i).map (fun mid => (mid, cfValue (fetch mid))) := by
          rw [← List.map_append]
          congr 1
          rw [← List.drop_drop]
          exact List.take_append_drop 10 (mids.drop i)
        by_cases h2 : i + 10 < mids.length
        · rw [if_pos h2]
          simp only [Prod.mk.injEq]
          refine ⟨hdrop, ?_⟩
          have hstep : (mids.length - i - 1) / 10
              = (mids.length - (i + 10) - 1) / 10 + 1 := by
            rw [Nat.div_eq_sub_div (by norm_num)
              (show 10 ≤ mids.length - i - 1 by omega),
              show mids.length - i - 1 - 10 = mids.length - (i + 10) - 1
                from by omega]
          rw [hstep, List.replicate_succ]
        · rw [if_neg h2]
          simp only [Prod.mk.injEq]
          refine ⟨hdrop, ?_⟩
          have hz1 : mids.length - (i + 10) - 1 = 0 := by omega
          have hz2 : (mids.length - i - 1) / 10 = 0 :=
            Nat.div_eq_of_lt (by omega)
          simp [hz1, hz2]
      · rw [loadCommonLoop, dif_neg h]
        have h1 : mids.drop i = [] := List.drop_eq_nil_of_le (by omega)
        have h2 : mids.length - i - 1 = 0 := by omega
        simp [h1, h2]

theorem lookup_map_pair (g : Nat → List Nat) (l : List Nat) (mid : Nat)
    (h : mid ∈ l) :
    (l.map (fun x => (x, g x))).lookup mid = some (g mid) := by
  induction l with
  | nil => cases h
  | cons a rest ih =>
      rw [List.map_cons, List.lookup_cons]
      by_cases hm : mid = a
      · subst hm
        simp
      · rw [show (mid == a) = false from beq_eq_false_iff_ne.mpr hm]
        exact ih (by
          rcases List.mem_cons.mp h with h' | h'
          · exact absurd h' hm
          · exact h')

/-- C6: the aggregation is total — for every identifier in the input its
entry is defined: the fetched list when the fetch resolves, the empty
list when it rejects; a single rejection never aborts the whole
aggregation. -/
theorem C6_partial_batch (fetch : Nat → Except Unit CFResult)
    (mids : List Nat) (mid : Nat) (h : mid ∈ mids) :
    (loadCommonFollowingsBatch fetch mids).1.lookup mid
      = some (cfValue (fetch mid)) ∧
    (fetch mid = .error () → cfValue (fetch mid) = []) ∧
    (∀ r, fetch mid = .ok r → cfValue (fetch mid) = r.list) := by
  refine ⟨?_, ?_, ?_⟩
  · rw [loadCommonFollowingsBatch, loadCommonLoop_spec]
    simp only [List.drop_zero]
    exact lookup_map_pair _ mids mid h
  · intro he
    rw [he]
    rfl
  · intro r hr
    rw [hr]
    rfl

/-- The concrete fetch used as the C6 witness: identifier 2 rejects,
every other identifier resolves with a one-element list. -/
def c6Fetch : Nat → Except Unit CFResult := fun mid =>
  if mid = 2 then .error () else .ok ⟨false, [mid + 100]⟩

/-- Witness for C6 aggregating `[1, 2, 3]` where identifier 2's fetch
rejects. -/
theorem C6_partial_batch_witness :
    (2 : Nat) ∈ [1, 2, 3] ∧
    ((loadCommonFollowingsBatch c6Fetch [1, 2, 3]).1.lookup 2
        = some (cfValue (c6Fetch 2)) ∧
     (c6Fetch 2 = .error () → cfValue (c6Fetch 2) = []) ∧
     (∀ r, c6Fetch 2 = .ok r → cfValue (c6Fetch 2) = r.list)) :=
  ⟨by decide, C6_partial_batch c6Fetch [1, 2, 3] 2 (by decide)⟩

/-- part_001 lines 455-459: the sequential relation loader's
per-identifier pacing, `setTimeout(resolve, result.fromCache ? 10 : 300)`. -/
def relationPacingDelay (fromCache : Bool) : Nat :=
  if fromCache then 10 else 300

/-- C7 counterexample: with eleven identifiers all served from cache, the
batch loader still performs its 300 ms inter-batch sleep (cache hits do
not skip it), and the sequential loader's cache-hit delay is 10 ms, not
zero. -/
theorem C7_pacing_counterexample :
    (loadCommonFollowingsBatch (fun mid => .ok ⟨true, [mid]⟩)
        [1, 2, 3, 4, 5, 6, 7, 8, 9, 10, 11]).2 = [300] ∧
    ¬ ((loadCommonFollowingsBatch (fun mid => .ok ⟨true, [mid]⟩)
        [1, 2, 3, 4, 5, 6, 7, 8, 9, 10, 11]).2 = []) ∧
    relationPacingDelay true = 10 ∧ ¬ (relationPacingDelay true = 0) := by
  have h : (loadCommonFollowingsBatch (fun mid => .ok ⟨true, [mid]⟩)
      [1, 2, 3, 4, 5, 6, 7, 8, 9, 10, 11]).2 = [300] := by
    rw [loadCommonFollowingsBatch, loadCommonLoop_spec]
    rfl
  exact ⟨h, by rw [h]; simp, rfl, by decide⟩

/-- C7 (amended): the batched aggregation sleeps a fixed 300 ms between
consecutive batches unconditionally — one sleep per inter-batch gap,
independent of whether any result came from cache; in the sequential
relation loader the per-identifier pacing delay is 300 ms, reduced to
10 ms (not skipped) when the result was served from cache. -/
theorem C7_pacing (fetch : Nat → Except Unit CFResult) (mids : List Nat) :
    (loadCommonFollowingsBatch fetch mids).2
      = List.replicate ((mids.length - 1) / 10) 300 ∧
    relationPacingDelay true = 10 ∧ relationPacingDelay false = 300 := by
  refine ⟨?_, rfl, rfl⟩
  rw [loadCommonFollowingsBatch, loadCommonLoop_spec]
  simp

/-! ## In-flight request deduplication (part_007 line 206, lines 286-331) -/

/-- The pending-map key for an identifier: `pending_${vmid}`. -/
def pendingKey (vmid : Nat) : String := "pending_" ++ toString vmid

/-- The module state around `getCommonFollowings`: the
`pendingRequests` map (key ↦ the registered promise, identified by a
serial number), a counter minting promise identities, and the log of
underlying HTTP requests issued so far. -/
structure DedupState where
  pending : List (String × Nat)
  nextId : Nat
  issued : List String
deriving DecidableEq, Repr

/-- What one call to `getCommonFollowings` returns: a cached response, an
in-flight promise reused from the pending map, or a freshly created
promise (whose creation issues the underlying request). -/
inductive CallResult where
  | cached
  | reused (promiseId : Nat)
  | fresh (promiseId : Nat)
deriving DecidableEq, Repr

/-- `getCommonFollowings` (part_007 lines 286-331) as one atomic step:
the function body up to its `return` runs synchronously on the event
loop — cache probe, pending-map probe, promise creation and registration
— so no other call interleaves with it.  `cacheHit` stands for
`cacheManager.get(cacheKey)` returning a value. -/
def getCommonFollowings (s : DedupState) (vmid : Nat)
    (useCache cacheHit : Bool) : CallResult × DedupState :=
  if useCache && cacheHit then (.cached, s)
  else
    match s.pending.lookup (pendingKey vmid) with
    | some pid => (.reused pid, s)
    | none =>
        (.fresh s.nextId,
         { pending := (pendingKey vmid, s.nextId) :: s.pending,
           nextId := s.nextId + 1,
           issued := s.issued ++ [pendingKey vmid] })

/-- The `finally` handler of the registered promise: when the request
settles — success or failure alike — its pending entry is deleted. -/
def settleCommon (s : DedupState) (vmid : Nat) (_success : Bool) : DedupState :=
  { s with pending := s.pending.filter (fun p => p.1 != pendingKey vmid) }

/-- An event on the shared pending map: some caller invokes
`getCommonFollowings`, or a registered request settles. -/
inductive DedupEvent where
  | call (vmid : Nat) (useCache cacheHit : Bool)
  | settle (vmid : Nat) (success : Bool)

def dedupStep (s : DedupState) : DedupEvent → DedupState
  | .call vmid useCache cacheHit => (getCommonFollowings s vmid useCache cacheHit).2
  | .settle vmid success => settleCommon s vmid success

def dedupRun (events : List DedupEvent) : DedupState :=
  events.foldl dedupStep { pending := [], nextId := 0, issued := [] }

/-- At most one pending entry per key. -/
def keysNodup (s : DedupState) : Prop := (s.pending.map Prod.fst).Nodup

theorem lookup_filter_ne {β : Type} (l : List (String × β)) (k : String) :
    (l.filter (fun p => p.1 != k)).lookup k = none := by
  induction l with
  | nil => rfl
  | cons p rest ih =>
      obtain ⟨k1, v1⟩ := p
      rw [List.filter_cons]
      by_cases h : k1 = k
      · simp only [h, bne_self_eq_false]
        exact ih
      · rw [show ((k1, v1).1 != k) = true from bne_iff_ne.mpr h, if_pos rfl]
        rw [List.lookup_cons]
        rw [show (k == k1) = false from beq_eq_false_iff_ne.mpr (fun hk => h hk.symm)]
        exact ih

theorem lookup_none_not_mem_keys {β : Type} (l : List (String × β)) (k : String)
    (h : l.lookup k = none) : k ∉ l.map Prod.fst := by
  induction l with
  | nil => simp
  | cons p rest ih =>
      obtain ⟨k1, v1⟩ := p
      rw [List.lookup_cons] at h
      by_cases hk : k = k1
      · rw [show (k == k1) = true from beq_iff_eq.mpr hk] at h
        simp at h
      · rw [show (k == k1) = false from beq_eq_false_iff_ne.mpr hk] at h
        simp only [List.map_cons, List.mem_cons]
        rintro (h' | h')
        · exact hk h'
        · exact ih h h'

theorem keysNodup_step (s : DedupState) (e : DedupEvent) (h : keysNodup s) :
    keysNodup (dedupStep s e) := by
  cases e with
  | call vmid useCache cacheHit =>
      rw [dedupStep, getCommonFollowings]
      by_cases hc : (useCache && cacheHit) = true
      · rw [if_pos hc]
        exact h
      · rw [if_neg hc]
        cases hl : s.pending.lookup (pendingKey vmid) with
        | some pid =>
            exact h
        | none =>
            have hmem := lookup_none_not_mem_keys s.pending (pendingKey vmid) hl
            simp only [keysNodup, List.map_cons, List.nodup_cons]
            exact ⟨hmem, h⟩
  | settle vmid success =>
      rw [dedupStep, settleCommon]
      exact List.Nodup.sublist
        (List.Sublist.map Prod.fst (List.filter_sublist s.pending)) h

theorem keysNodup_foldl (events : List DedupEvent) (s : DedupState)
    (h : keysNodup s) : keysNodup (events.foldl dedupStep s) := by
  induction events generalizing s with
  | nil => exact h
  | cons e rest ih => exact ih _ (keysNodup_step s e h)

/-- C3: (1) along every interleaving of calls and settlements, at most
one pending request exists per key; (2) when no request for the key is
pending and the cache misses, a call registers a fresh promise and issues
the underlying request exactly once, and a second call arriving before it
settles returns the very same promise (same outcome) and changes nothing
— in particular it issues no second request; (3) settling — success or
failure — unconditionally removes the pending entry, so a subsequent call
issues a fresh request. -/
theorem C3_request_dedup :
    (∀ events, keysNodup (dedupRun events)) ∧
    (∀ (s : DedupState) (vmid : Nat),
      s.pending.lookup (pendingKey vmid) = none →
        getCommonFollowings s vmid true false
            = (.fresh s.nextId,
               { pending := (pendingKey vmid, s.nextId) :: s.pending,
                 nextId := s.nextId + 1,
                 issued := s.issued ++ [pendingKey vmid] }) ∧
        getCommonFollowings (getCommonFollowings s vmid true false).2
            vmid true false
            = (.reused s.nextId, (getCommonFollowings s vmid true false).2)) ∧
    (∀ (s : DedupState) (vmid : Nat) (success : Bool),
      (settleCommon s vmid success).pending.lookup (pendingKey vmid) = none ∧
      (getCommonFollowings (settleCommon s vmid success) vmid true false).1
          = .fresh (settleCommon s vmid success).nextId) := by
  refine ⟨?_, ?_, ?_⟩
  · intro events
    exact keysNodup_foldl events _ (by simp [keysNodup])
  · intro s vmid hl
    have h1 : getCommonFollowings s vmid true false
        = (.fresh s.nextId,
           { pending := (pendingKey vmid, s.nextId) :: s.pending,
             nextId := s.nextId + 1,
             issued := s.issued ++ [pendingKey vmid] }) := by
      rw [getCommonFollowings]
      simp only [Bool.and_false, Bool.false_eq_true, if_false, hl]
    refine ⟨h1, ?_⟩
    rw [h1, getCommonFollowings]
    simp [List.lookup_cons]
  · intro s vmid success
    have hl : (settleCommon s vmid success).pending.lookup (pendingKey vmid)
        = none := lookup_filter_ne s.pending (pendingKey vmid)
    refine ⟨hl, ?_⟩
    rw [getCommonFollowings]
    simp only [Bool.and_false, Bool.false_eq_true, if_false, hl]

/-- Witness for C3's dedup scenario at the empty initial state and
identifier 7. -/
theorem C3_request_dedup_witness :
    (DedupState.mk [] 0 []).pending.lookup (pendingKey 7) = none ∧
    (getCommonFollowings (DedupState.mk [] 0 []) 7 true false
        = (.fresh 0,
           { pending := [(pendingKey 7, 0)], nextId := 1,
             issued := [pendingKey 7] }) ∧
     getCommonFollowings
        (getCommonFollowings (DedupState.mk [] 0 []) 7 true false).2 7 true false
        = (.reused 0, (getCommonFollowings (DedupState.mk [] 0 []) 7 true false).2)) :=
  ⟨rfl, by
    have := C3_request_dedup.2.1 (DedupState.mk [] 0 []) 7 rfl
    simpa using this⟩

/-! ## Graph transformation (part_002 `useGraphTransform`) -/

/-- One entry of the followings list, with the fields the node pass
reads. -/
structure FansItem where
  mid : Nat
  uname : String
  vipStatus : Bool

/-- The node pass (part_002 lines 35-50): deduplicate the followings list
by identifier, keeping first occurrence order.  Node ids are
`mid.toString()` in the source; numeric ids are in bijection with those
strings. -/
def uniqueNodeIds (followingsList : List FansItem) : List Nat :=
  followingsList.foldl
    (fun acc u => if u.mid ∈ acc then acc else acc ++ [u.mid]) []

/-- A built edge (`GraphLink`): the bidirectional tag models the
`LINK_COLOR_BIDIRECTIONAL` colour assigned exactly to bidirectional
edges. -/
structure GLink where
  source : Nat
  target : Nat
  bidirectional : Bool
deriving DecidableEq, Repr

/-- The edge pass (part_002 lines 52-78): for each node `mid`, for each
`m` in `commonFollowingsMap.get(mid)`, if `m` is itself a node, record
the ordered pair `(mid, m)` once (dedup by the `"source-target"` key,
which is injective on pairs of numeric ids). -/
def collectEdges (nodeIds : List Nat) (commonMap : Nat → Option (List Nat)) :
    List (Nat × Nat) :=
  nodeIds.foldl
    (fun acc mid =>
      match commonMap mid with
      | none => acc
      | some commonMids =>
          commonMids.foldl
            (fun acc2 m =>
              if m ∈ nodeIds ∧ (mid, m) ∉ acc2 then acc2 ++ [(mid, m)]
              else acc2) acc) []

/-- Bidirectional detection (part_002 lines 80-90): for every edge whose
reverse is also present, both the edge's key and the reverse key are
added to the set. -/
def bidirectionalPairs (edges : List (Nat × Nat)) : List (Nat × Nat) :=
  edges.foldl
    (fun acc e =>
      if (e.2, e.1) ∈ edges then (e.1, e.2) :: (e.2, e.1) :: acc else acc) []

/-- The final edge list (part_002 lines 92-109): each deduplicated pair
becomes one link, tagged by membership in the bidirectional set, with
`swapLinkDirection` reversing the stored endpoints. -/
def buildLinks (swap : Bool) (edges : List (Nat × Nat)) : List GLink :=
  edges.map (fun e =>
    if swap then
      { source := e.2, target := e.1,
        bidirectional := decide ((e.1, e.2) ∈ bidirectionalPairs edges) }
    else
      { source := e.1, target := e.2,
        bidirectional := decide ((e.1, e.2) ∈ bidirectionalPairs edges) })

def graphLinks (followingsList : List FansItem)
    (commonMap : Nat → Option (List Nat)) (swap : Bool) : List GLink :=
  buildLinks swap (collectEdges (uniqueNodeIds followingsList) commonMap)

/-- The set of connected node ids (part_002 lines 112-116): every
endpoint of every link. -/
def connectedIds (links : List GLink) : List Nat :=
  links.foldl (fun acc l => l.source :: l.target :: acc) []

/-- The isolation filter (part_002 lines 118-120): keep the nodes that
appear as an endpoint. -/
def filteredNodeIds (allIds : List Nat) (links : List GLink) : List Nat :=
  allIds.filter (fun nid => decide (nid ∈ connectedIds links))

/-- The degree map (part_002 lines 123-127): fold over the links,
incrementing the counter of both endpoints; an absent key counts as 0
(`nodeDegree.get(x) || 0`). -/
def nodeDegree (links : List GLink) : Nat → Nat :=
  links.foldl
    (fun m l =>
      let m1 := fun x => if x = l.source then m l.source + 1 else m x
      fun x => if x = l.target then m1 l.target + 1 else m1 x)
    (fun _ => 0)

theorem mem_foldl_bidir (edges : List (Nat × Nat)) (x : Nat × Nat) :
    ∀ (l : List (Nat × Nat)) (acc : List (Nat × Nat)),
      (x ∈ l.foldl
          (fun acc e =>
            if (e.2, e.1) ∈ edges then (e.1, e.2) :: (e.2, e.1) :: acc else acc)
          acc
        ↔ x ∈ acc ∨ ∃ e ∈ l, (e.2, e.1) ∈ edges ∧
            (x = (e.1, e.2) ∨ x = (e.2, e.1))) := by
  intro l
  induction l with
  | nil => intro acc; simp
  | cons e l ih =>
      intro acc
      rw [List.foldl_cons, ih]
      by_cases h : (e.2, e.1) ∈ edges
      · rw [if_pos h]
        constructor
        · rintro (hx | ⟨e2, he2, hc⟩)
          · rcases List.mem_cons.mp hx with h1 | hx2
            · exact Or.inr ⟨e, List.mem_cons_self e l, h, Or.inl h1⟩
            · rcases List.mem_cons.mp hx2 with h1 | h1
              · exact Or.inr ⟨e, List.mem_cons_self e l, h, Or.inr h1⟩
              · exact Or.inl h1
          · exact Or.inr ⟨e2, List.mem_cons_of_mem e he2, hc⟩
        · rintro (hx | ⟨e2, he2, hrev, hx⟩)
          · exact Or.inl (List.mem_cons_of_mem _ (List.mem_cons_of_mem _ hx))
          · rcases List.mem_cons.mp he2 with he1 | he1
            · subst he1
              rcases hx with h1 | h1
              · exact Or.inl (by rw [h1]; exact List.mem_cons_self _ _)
              · exact Or.inl (by
                  rw [h1]
                  exact List.mem_cons_of_mem _ (List.mem_cons_self _ _))
            · exact Or.inr ⟨e2, he1, hrev, hx⟩
      · rw [if_neg h]
        constructor
        · rintro (hx | ⟨e2, he2, hc⟩)
          · exact Or.inl hx
          · exact Or.inr ⟨e2, List.mem_cons_of_mem e he2, hc⟩
        · rintro (hx | ⟨e2, he2, hrev, hx⟩)
          · exact Or.inl hx
          · rcases List.mem_cons.mp he2 with he1 | he1
            · subst he1
              exact absurd hrev h
            · exact Or.inr ⟨e2, he1, hrev, hx⟩

theorem mem_bidirectionalPairs (edges : List (Nat × Nat)) (x : Nat × Nat) :
    x ∈ bidirectionalPairs edges ↔ x ∈ edges ∧ (x.2, x.1) ∈ edges := by
  rw [bidirectionalPairs, mem_foldl_bidir]
  simp only [List.not_mem_nil, false_or]
  constructor
  · rintro ⟨e, he, hrev, hx | hx⟩
    · subst hx
      exact ⟨he, hrev⟩
    · subst hx
      exact ⟨hrev, he⟩
  · rintro ⟨hx, hrev⟩
    exact ⟨x, hx, hrev, Or.inl rfl⟩

theorem buildLinks_symm (edges : List (Nat × Nat)) (swap : Bool) :
    ∀ l ∈ buildLinks swap edges,
      (l.bidirectional = true ↔
        ∃ l2 ∈ buildLinks swap edges,
          l2.source = l.target ∧ l2.target = l.source) ∧
      (l.bidirectional = true →
        ∃ l2 ∈ buildLinks swap edges,
          l2.source = l.target ∧ l2.target = l.source ∧
            l2.bidirectional = true) := by
  intro l hl
  rw [buildLinks] at hl
  obtain ⟨e, he, hfe⟩ := List.mem_map.mp hl
  cases swap with
  | false =>
      simp only [Bool.false_eq_true, if_false] at hfe
      subst hfe
      have hforward : decide ((e.1, e.2) ∈ bidirectionalPairs edges) = true →
          (e.2, e.1) ∈ edges := by
        intro hb
        rw [decide_eq_true_eq] at hb
        exact ((mem_bidirectionalPairs edges _).mp hb).2
      refine ⟨⟨?_, ?_⟩, ?_⟩
      · intro hb
        exact ⟨_, List.mem_map.mpr ⟨(e.2, e.1), hforward hb, rfl⟩, rfl, rfl⟩
      · rintro ⟨l2, hl2, hs, ht⟩
        obtain ⟨e', he', hfe'⟩ := List.mem_map.mp hl2
        subst hfe'
        simp only [Bool.false_eq_true, if_false] at hs ht
        have hrev : (e.2, e.1) ∈ edges := by
          have he2 : e' = (e.2, e.1) := by
            rw [← hs, ← ht]
          rwa [he2] at he'
        simp only [decide_eq_true_eq]
        exact (mem_bidirectionalPairs edges _).mpr ⟨he, hrev⟩
      · intro hb
        have hrev := hforward hb
        refine ⟨GLink.mk e.2 e.1
            (decide ((e.2, e.1) ∈ bidirectionalPairs edges)),
          List.mem_map.mpr ⟨(e.2, e.1), hrev, rfl⟩, rfl, rfl, ?_⟩
        exact decide_eq_true ((mem_bidirectionalPairs edges _).mpr ⟨hrev, he⟩)
  | true =>
      simp only [if_true] at hfe
      subst hfe
      have hforward : decide ((e.1, e.2) ∈ bidirectionalPairs edges) = true →
          (e.2, e.1) ∈ edges := by
        intro hb
        rw [decide_eq_true_eq] at hb
        exact ((mem_bidirectionalPairs edges _).mp hb).2
      refine ⟨⟨?_, ?_⟩, ?_⟩
      · intro hb
        exact ⟨_, List.mem_map.mpr ⟨(e.2, e.1), hforward hb, rfl⟩, rfl, rfl⟩
      · rintro ⟨l2, hl2, hs, ht⟩
        obtain ⟨e', he', hfe'⟩ := List.mem_map.mp hl2
        subst hfe'
        simp only [if_true] at hs ht
        have hrev : (e.2, e.1) ∈ edges := by
          have he2 : e' = (e.2, e.1) := by
            rw [← hs, ← ht]
          rwa [he2] at he'
        simp only [decide_eq_true_eq]
        exact (mem_bidirectionalPairs edges _).mpr ⟨he, hrev⟩
      · intro hb
        have hrev := hforward hb
        refine ⟨GLink.mk e.1 e.2
            (decide ((e.2, e.1) ∈ bidirectionalPairs edges)),
          List.mem_map.mpr ⟨(e.2, e.1), hrev, rfl⟩, rfl, rfl, ?_⟩
        exact decide_eq_true ((mem_bidirectionalPairs edges _).mpr ⟨hrev, he⟩)

/-- C8: in the built edge list, an edge is tagged bidirectional exactly
when the reverse edge is present, and the reverse of a bidirectional edge
carries the same bidirectional tag — under either direction-swap
setting. -/
theorem C8_bidirectional_symmetry (followingsList : List FansItem)
    (commonMap : Nat → Option (List Nat)) (swap : Bool) :
    ∀ l ∈ graphLinks followingsList commonMap swap,
      (l.bidirectional = true ↔
        ∃ l2 ∈ graphLinks followingsList commonMap swap,
          l2.source = l.target ∧ l2.target = l.source) ∧
      (l.bidirectional = true →
        ∃ l2 ∈ graphLinks followingsList commonMap swap,
          l2.source = l.target ∧ l2.target = l.source ∧
            l2.bidirectional = true) :=
  buildLinks_symm (collectEdges (uniqueNodeIds followingsList) commonMap) swap

/-- The concrete two-node mutual-follow instance used as the C8 witness. -/
def c8Map : Nat → Option (List Nat) := fun m =>
  if m = 1 then some [2] else if m = 2 then some [1] else none

/-- Witness for C8: two users following each other produce the link
(1,2) tagged bidirectional, whose reverse (2,1) is present with the same
tag. -/
theorem C8_bidirectional_symmetry_witness :
    GLink.mk 1 2 true
        ∈ graphLinks [⟨1, "a", false⟩, ⟨2, "b", false⟩] c8Map false ∧
    (((GLink.mk 1 2 true).bidirectional = true ↔
        ∃ l2 ∈ graphLinks [⟨1, "a", false⟩, ⟨2, "b", false⟩] c8Map false,
          l2.source = (GLink.mk 1 2 true).target ∧
          l2.target = (GLink.mk 1 2 true).source) ∧
     ((GLink.mk 1 2 true).bidirectional = true →
        ∃ l2 ∈ graphLinks [⟨1, "a", false⟩, ⟨2, "b", false⟩] c8Map false,
          l2.source = (GLink.mk 1 2 true).target ∧
          l2.target = (GLink.mk 1 2 true).source ∧
            l2.bidirectional = true)) :=
  ⟨by decide,
    C8_bidirectional_symmetry [⟨1, "a", false⟩, ⟨2, "b", false⟩] c8Map false
      (GLink.mk 1 2 true) (by decide)⟩

theorem foldl_degree_apply (ls : List GLink) :
    ∀ (init : Nat → Nat) (x : Nat),
      ls.foldl
        (fun m l =>
          let m1 := fun x => if x = l.source then m l.source + 1 else m x
          fun x => if x = l.target then m1 l.target + 1 else m1 x) init x
      = init x + (ls.map GLink.source).count x
          + (ls.map GLink.target).count x := by
  induction ls with
  | nil =>
      intro init x
      simp
  | cons l rest ih =>
      intro init x
      rw [List.foldl_cons, ih]
      simp only [List.map_cons, List.count_cons, beq_iff_eq]
      by_cases hs : x = l.source
      · subst hs
        split_ifs <;> omega
      · by_cases ht : x = l.target
        · subst ht
          split_ifs <;> omega
        · split_ifs <;> omega

theorem nodeDegree_eq_counts (links : List GLink) (x : Nat) :
    nodeDegree links x
      = (links.map GLink.source).count x + (links.map GLink.target).count x := by
  rw [nodeDegree, foldl_degree_apply]
  omega

theorem sum_map_add_split (S : List Nat) (f g : Nat → Nat) :
    (S.map (fun x => f x + g x)).sum = (S.map f).sum + (S.map g).sum := by
  induction S with
  | nil => rfl
  | cons a S ih =>
      simp only [List.map_cons, List.sum_cons, ih]
      omega

theorem sum_map_ite_eq (S : List Nat) (a : Nat) :
    (S.map (fun x => if x = a then 1 else 0)).sum = S.count a := by
  induction S with
  | nil => rfl
  | cons b S ih =>
      simp only [List.map_cons, List.sum_cons, ih, List.count_cons, beq_iff_eq]
      by_cases h : b = a
      · subst h
        simp only [eq_self_iff_true, if_true]
        omega
      · rw [if_neg h]
        omega

theorem sum_counts_eq_length (L S : List Nat) (hS : S.Nodup)
    (hsub : ∀ a ∈ L, a ∈ S) :
    (S.map (fun x => L.count x)).sum = L.length := by
  induction L with
  | nil => simp
  | cons a L ih =>
      have hmem : a ∈ S := hsub a (List.mem_cons_self a L)
      have hL : ∀ b ∈ L, b ∈ S := fun b hb => hsub b (List.mem_cons_of_mem a hb)
      have hpt : (S.map (fun x => (a :: L).count x)).sum
          = (S.map (fun x => L.count x + if x = a then 1 else 0)).sum := by
        apply congrArg
        apply List.map_congr_left
        intro x _
        rw [List.count_cons]
        simp only [beq_iff_eq]
        by_cases hax : a = x
        · rw [if_pos hax, if_pos hax.symm]
        · rw [if_neg hax, if_neg (fun hxa => hax hxa.symm)]
      rw [hpt, sum_map_add_split, sum_map_ite_eq, ih hL,
        List.count_eq_one_of_mem hS hmem, List.length_cons]

theorem uniqueNodeIds_nodup_aux (fl : List FansItem) :
    ∀ acc : List Nat, acc.Nodup →
      (fl.foldl (fun acc u => if u.mid ∈ acc then acc else acc ++ [u.mid])
        acc).Nodup := by
  induction fl with
  | nil => intro acc h; exact h
  | cons u fl ih =>
      intro acc h
      rw [List.foldl_cons]
      by_cases hm : u.mid ∈ acc
      · rw [if_pos hm]
        exact ih acc h
      · rw [if_neg hm]
        exact ih _ (List.Nodup.append h (List.nodup_singleton _)
          ((List.disjoint_singleton).mpr hm))

theorem uniqueNodeIds_nodup (fl : List FansItem) : (uniqueNodeIds fl).Nodup :=
  uniqueNodeIds_nodup_aux fl [] List.nodup_nil

theorem collectEdges_inner_mem (nodeIds : List Nat) (mid : Nat)
    (hmid : mid ∈ nodeIds) (ms : List Nat) :
    ∀ acc : List (Nat × Nat),
      (∀ e ∈ acc, e.1 ∈ nodeIds ∧ e.2 ∈ nodeIds) →
      ∀ e ∈ ms.foldl
          (fun acc2 m =>
            if m ∈ nodeIds ∧ (mid, m) ∉ acc2 then acc2 ++ [(mid, m)]
            else acc2) acc,
        e.1 ∈ nodeIds ∧ e.2 ∈ nodeIds := by
  induction ms with
  | nil => intro acc hacc; exact hacc
  | cons m ms ih =>
      intro acc hacc
      rw [List.foldl_cons]
      apply ih
      intro e he
      by_cases h : m ∈ nodeIds ∧ (mid, m) ∉ acc
      · rw [if_pos h] at he
        rcases List.mem_append.mp he with he1 | he1
        · exact hacc e he1
        · rw [List.mem_singleton.mp he1]
          exact ⟨hmid, h.1⟩
      · rw [if_neg h] at he
        exact hacc e he

theorem collectEdges_mem (nodeIds : List Nat) (cm : Nat → Option (List Nat)) :
    ∀ e ∈ collectEdges nodeIds cm, e.1 ∈ nodeIds ∧ e.2 ∈ nodeIds := by
  rw [collectEdges]
  have H : ∀ (l : List Nat), (∀ m ∈ l, m ∈ nodeIds) →
      ∀ acc : List (Nat × Nat),
        (∀ e ∈ acc, e.1 ∈ nodeIds ∧ e.2 ∈ nodeIds) →
        ∀ e ∈ l.foldl
            (fun acc mid =>
              match cm mid with
              | none => acc
              | some commonMids =>
                  commonMids.foldl
                    (fun acc2 m =>
                      if m ∈ nodeIds ∧ (mid, m) ∉ acc2 then acc2 ++ [(mid, m)]
                      else acc2) acc) acc,
          e.1 ∈ nodeIds ∧ e.2 ∈ nodeIds := by
    intro l
    induction l with
    | nil => intro _ acc hacc; exact hacc
    | cons mid l ih =>
        intro hl acc hacc
        rw [List.foldl_cons]
        apply ih (fun m hm => hl m (List.mem_cons_of_mem mid hm))
        cases hcm : cm mid with
        | none => simpa [hcm] using hacc
        | some ms =>
            simp only [hcm]
            exact collectEdges_inner_mem nodeIds mid
              (hl mid (List.mem_cons_self mid l)) ms acc hacc
  exact H nodeIds (fun m hm => hm) [] (by simp)

theorem mem_connectedIds_foldl (x : Nat) :
    ∀ (ls : List GLink) (acc : List Nat),
      (x ∈ ls.foldl (fun acc l => l.source :: l.target :: acc) acc ↔
        x ∈ acc ∨ ∃ l ∈ ls, x = l.source ∨ x = l.target) := by
  intro ls
  induction ls with
  | nil => intro acc; simp
  | cons l ls ih =>
      intro acc
      rw [List.foldl_cons, ih]
      constructor
      · rintro (hx | ⟨l2, hl2, hx⟩)
        · rcases List.mem_cons.mp hx with h1 | hx2
          · exact Or.inr ⟨l, List.mem_cons_self l ls, Or.inl h1⟩
          · rcases List.mem_cons.mp hx2 with h1 | h1
            · exact Or.inr ⟨l, List.mem_cons_self l ls, Or.inr h1⟩
            · exact Or.inl h1
        · exact Or.inr ⟨l2, List.mem_cons_of_mem l hl2, hx⟩
      · rintro (hx | ⟨l2, hl2, hx⟩)
        · exact Or.inl (List.mem_cons_of_mem _ (List.mem_cons_of_mem _ hx))
        · rcases List.mem_cons.mp hl2 with h1 | h1
          · subst h1
            rcases hx with h2 | h2
            · exact Or.inl (by rw [h2]; exact List.mem_cons_self _ _)
            · exact Or.inl (by
                rw [h2]
                exact List.mem_cons_of_mem _ (List.mem_cons_self _ _))
          · exact Or.inr ⟨l2, h1, hx⟩

theorem mem_connectedIds (links : List GLink) (x : Nat) :
    x ∈ connectedIds links ↔ ∃ l ∈ links, x = l.source ∨ x = l.target := by
  rw [connectedIds, mem_connectedIds_foldl]
  simp

theorem graphLinks_endpoints (fl : List FansItem)
    (cm : Nat → Option (List Nat)) (swap : Bool) :
    ∀ l ∈ graphLinks fl cm swap,
      l.source ∈ uniqueNodeIds fl ∧ l.target ∈ uniqueNodeIds fl := by
  intro l hl
  rw [graphLinks, buildLinks] at hl
  obtain ⟨e, he, hfe⟩ := List.mem_map.mp hl
  have hend := collectEdges_mem (uniqueNodeIds fl) cm e he
  cases swap with
  | false =>
      simp only [Bool.false_eq_true, if_false] at hfe
      subst hfe
      exact ⟨hend.1, hend.2⟩
  | true =>
      simp only [if_true] at hfe
      subst hfe
      exact ⟨hend.2, hend.1⟩

/-- C9: after isolated-node filtering, the degrees of the retained nodes
sum to exactly twice the number of built edges — each edge contributes
one increment at each endpoint. -/
theorem C9_degree_sum (followingsList : List FansItem)
    (commonMap : Nat → Option (List Nat)) (swap : Bool) :
    ((filteredNodeIds (uniqueNodeIds followingsList)
        (graphLinks followingsList commonMap swap)).map
      (nodeDegree (graphLinks followingsList commonMap swap))).sum
      = 2 * (graphLinks followingsList commonMap swap).length := by
  have hSnodup : (filteredNodeIds (uniqueNodeIds followingsList)
      (graphLinks followingsList commonMap swap)).Nodup :=
    List.Nodup.filter _ (uniqueNodeIds_nodup followingsList)
  have hmapeq : (filteredNodeIds (uniqueNodeIds followingsList)
        (graphLinks followingsList commonMap swap)).map
          (nodeDegree (graphLinks followingsList commonMap swap))
      = (filteredNodeIds (uniqueNodeIds followingsList)
        (graphLinks followingsList commonMap swap)).map
          (fun x =>
            ((graphLinks followingsList commonMap swap).map
              GLink.source).count x
            + ((graphLinks followingsList commonMap swap).map
              GLink.target).count x) :=
    List.map_congr_left (fun x _ =>
      nodeDegree_eq_counts (graphLinks followingsList commonMap swap) x)
  rw [hmapeq, sum_map_add_split]
  have hsrc : ∀ a ∈ (graphLinks followingsList commonMap swap).map GLink.source,
      a ∈ filteredNodeIds (uniqueNodeIds followingsList)
        (graphLinks followingsList commonMap swap) := by
    intro a ha
    obtain ⟨l, hl, rfl⟩ := List.mem_map.mp ha
    have h1 : l.source ∈ uniqueNodeIds followingsList :=
      (graphLinks_endpoints followingsList commonMap swap l hl).1
    have h2 : l.source ∈ connectedIds (graphLinks followingsList commonMap swap) :=
      (mem_connectedIds _ l.source).mpr ⟨l, hl, Or.inl rfl⟩
    rw [filteredNodeIds]
    exact List.mem_filter.mpr ⟨h1, by simpa using h2⟩
  have htgt : ∀ a ∈ (graphLinks followingsList commonMap swap).map GLink.target,
      a ∈ filteredNodeIds (uniqueNodeIds followingsList)
        (graphLinks followingsList commonMap swap) := by
    intro a ha
    obtain ⟨l, hl, rfl⟩ := List.mem_map.mp ha
    have h1 : l.target ∈ uniqueNodeIds followingsList :=
      (graphLinks_endpoints followingsList commonMap swap l hl).2
    have h2 : l.target ∈ connectedIds (graphLinks followingsList commonMap swap) :=
      (mem_connectedIds _ l.target).mpr ⟨l, hl, Or.inr rfl⟩
    rw [filteredNodeIds]
    exact List.mem_filter.mpr ⟨h1, by simpa using h2⟩
  rw [sum_counts_eq_length _ _ hSnodup hsrc,
    sum_counts_eq_length _ _ hSnodup htgt, List.length_map, List.length_map]
  omega
